import Mathlib

/-!
Verification development for the MNI 7T DICOM-to-BIDS post-processing module
(`mni_7t_dicom_to_bids/patch_files.py`).

The module's own helper dataclasses (`BidsName`, `DicomSeriesInfo` from
`mni_7t_dicom_to_bids.dataclass`) are not part of the provided sources, so they
are modelled from the specification (section 3 "DATA MODEL" and section 6
"EXTERNAL INTERFACES"): a structured filename is an ordered sequence of
key-value or bare components plus an extension, with component operations
`has`, `has_value`, `get`, `add`, `remove`, a serialized form, and an
echo-marker search.  The external library helpers (`rename_file`,
`update_json`) are likewise modelled from their contracts as stated in the
specification.  Everything in `patch_files.py` itself is translated directly
from the source.
-/

/-- A filename component: a key together with an optional value.  A bare token
such as `MP2RAGE` is a key with no value. -/
abbrev Component := String × Option String

/-- Modelled from the spec: a parsed representation of a BIDS-style filename as
an ordered sequence of key-value (or bare) components plus a file extension
(`mni_7t_dicom_to_bids.dataclass.BidsName`, not included in the sources). -/
structure BidsName where
  components : List Component
  extension : String
deriving DecidableEq, Repr

/-- Modelled from the spec: existence check of a component key. -/
def BidsName.has (b : BidsName) (k : String) : Bool :=
  b.components.any (fun c => c.1 == k)

/-- Modelled from the spec: existence check of a specific key=value pair. -/
def BidsName.has_value (b : BidsName) (k v : String) : Bool :=
  b.components.any (fun c => c.1 == k && c.2 == some v)

/-- Modelled from the spec: read the value of a component key (the first
occurrence); a bare component or a missing key yields no value. -/
def BidsName.get (b : BidsName) (k : String) : Option String :=
  (b.components.find? (fun c => c.1 == k)).bind (fun c => c.2)

/-- Remove every component with the given key from a component list. -/
def removeKey (k : String) (cs : List Component) : List Component :=
  cs.filter (fun c => !(c.1 == k))

/-- Modelled from the spec: remove a component by key. -/
def BidsName.remove (b : BidsName) (k : String) : BidsName :=
  ⟨removeKey k b.components, b.extension⟩

/-- Set a key to a value in a component list: overwrite the first occurrence
of the key in place, or append the pair when the key is absent.  This is the
"set" semantics the spec uses for rule 11 together with the invariant that
component keys are unique. -/
def setKeyComp (k : String) (v : Option String) : List Component → List Component
  | [] => [(k, v)]
  | c :: cs => if c.1 == k then (k, v) :: cs else c :: setKeyComp k v cs

/-- Modelled from the spec: add a component (overwriting an existing key). -/
def BidsName.add (b : BidsName) (k : String) (v : Option String) : BidsName :=
  ⟨setKeyComp k v b.components, b.extension⟩

/-- Recognize an echo marker component: a bare token consisting of the letter
`e` followed by a single digit, returning the digit. -/
def echoToken? (c : Component) : Option Char :=
  match c with
  | (k, none) =>
    match k.toList with
    | [c1, c2] => if c1 = 'e' && c2.isDigit then some c2 else none
    | _ => none
  | (_, some _) => none

/-- Modelled from the spec: the regex search `match(r'e(\d)')` of the source,
restricted per the spec's rule 3 to an echo-marker token of the name — the
first bare component of the form `e<digit>`, returned together with its
digit. -/
def matchEcho (b : BidsName) : Option (String × Char) :=
  b.components.findSome? (fun c => (echoToken? c).map (fun d => (c.1, d)))

/-- Python `int(...)` on a string (sign and surrounding whitespace allowed;
digit-group underscores are not modelled), returning `none` where Python
raises `ValueError`. -/
def pyIntParse? (s : String) : Option Int :=
  let cs := (s.toList.dropWhile Char.isWhitespace).reverse.dropWhile Char.isWhitespace |>.reverse
  let signAndDigits : Int × List Char :=
    match cs with
    | '-' :: rest => (-1, rest)
    | '+' :: rest => (1, rest)
    | _ => (1, cs)
  let digits := signAndDigits.2
  if digits ≠ [] && digits.all Char.isDigit then
    some (signAndDigits.1 * (Int.ofNat (digits.foldl (fun n c => n * 10 + (c.toNat - 48)) 0)))
  else
    none

/-- The run number of the TB1TFL rule: `int(bids_name.get('run') or 0)`.  A
missing component (or a falsy empty string) defaults to `0`; a non-empty
non-numeric value makes Python `int` raise `ValueError`, modelled as `none`. -/
def runNumber? (v : Option String) : Option Int :=
  match v with
  | none => some 0
  | some s => if s = "" then some 0 else pyIntParse? s

/-- Python `math.ceil(n / 2)` for an integer `n` (exact for the magnitudes in
scope): the negated floor division of the negation. -/
def ceilHalf (n : Int) : Int :=
  -(Int.ediv (-n) 2)

/-- Delete condition of rule 1: an MP2RAGE marker with a `bval`/`bvec`
gradient-table extension. -/
def mp2rageDelete (b : BidsName) : Bool :=
  b.has "MP2RAGE" && (b.extension == "bval" || b.extension == "bvec")

/-- Delete condition of rule 2: an `ROI1` marker. -/
def roiDelete (b : BidsName) : Bool :=
  b.has "ROI1"

/-- Rule 3: replace a bare `e<digit>` token by an `echo-<digit>` component. -/
def echoRule (b : BidsName) : BidsName :=
  match matchEcho b with
  | some td => (b.remove td.1).add "echo" (some (String.mk [td.2]))
  | none => b

/-- Rule 4: remove `run` from echo files whose task is not `rest`. -/
def echoRunRule (b : BidsName) : BidsName :=
  if b.has "echo" && b.has "run" && !(b.has_value "task" "rest") then b.remove "run" else b

/-- Rule 5: remove `run` from MTR (`acq-mtw`) files. -/
def mtwRule (b : BidsName) : BidsName :=
  if b.has_value "acq" "mtw" && b.has "run" then b.remove "run" else b

/-- Rule 6: replace a bare `ph` token with `part-phase`. -/
def phRule (b : BidsName) : BidsName :=
  if b.has "ph" then (b.remove "ph").add "part" (some "phase") else b

/-- Rule 7: add `part-mag` to T2starw files with an echo and no part yet. -/
def t2MagRule (b : BidsName) : BidsName :=
  if b.has "T2starw" && b.has "echo" && !(b.has "part") then b.add "part" (some "mag") else b

/-- Rule 8: replace a standalone `T2starw` of an aspire acquisition with
`T2starmap`, dropping `run`. -/
def aspireRule (b : BidsName) : BidsName :=
  if b.has_value "acq" "aspire" && b.has "T2starw" && !(b.has "desc") && !(b.has "part") then
    ((b.remove "run").remove "T2starw").add "T2starmap" none
  else b

/-- Rule 9: remove `run-1` in DWI acquisitions. -/
def dwiRun1Rule (b : BidsName) : BidsName :=
  if b.has "dwi" && b.has_value "run" "1" then b.remove "run" else b

/-- Rule 10: replace `run-2` with `part-phase` in DWI acquisitions. -/
def dwiRun2Rule (b : BidsName) : BidsName :=
  if b.has "dwi" && b.has_value "run" "2" then (b.remove "run").add "part" (some "phase") else b

/-- Rules 3 through 10 of `patch_file_path`, composed in source order. -/
def renameRules (b : BidsName) : BidsName :=
  dwiRun2Rule (dwiRun1Rule (aspireRule (t2MagRule (phRule (mtwRule (echoRunRule (echoRule b)))))))

/-- Rule 11: the TB1TFL-specific post processing.  The `int` conversion of the
`run` value can raise `ValueError`, modelled by the `Except` error case. -/
def tb1tflRule (b : BidsName) : Except Unit BidsName :=
  if b.has "TB1TFL" then
    match runNumber? (b.get "run") with
    | some n =>
      .ok ((b.add "acq" (some (if n % 2 == 1 then "anat" else "sfam"))).add "run"
            (some (toString (ceilHalf n))))
    | none => .error ()
  else .ok b

/-- Outcome of `patch_file_path` on one file: the file is deleted, or kept
under a (possibly renamed) final name, or the run aborts with `ValueError`. -/
inductive PatchOutcome where
  | deleted : PatchOutcome
  | kept : BidsName → PatchOutcome
  | valueError : PatchOutcome
deriving DecidableEq, Repr

/-- The per-file patching function `patch_file_path` of the source: delete
MP2RAGE gradient-table files and ROI files, otherwise apply the rename rules
in order and keep the resulting name. -/
def patch_file_path (b : BidsName) : PatchOutcome :=
  if mp2rageDelete b then .deleted
  else if roiDelete b then .deleted
  else
    match tb1tflRule (renameRules b) with
    | .ok b2 => .kept b2
    | .error _ => .valueError

/-- The name produced by `patch_file_path` when the file is kept. -/
def patchName? (b : BidsName) : Option BidsName :=
  match patch_file_path b with
  | .kept b2 => some b2
  | _ => none

theorem ext_add (b : BidsName) (k : String) (v : Option String) :
    (b.add k v).extension = b.extension := rfl

theorem ext_remove (b : BidsName) (k : String) :
    (b.remove k).extension = b.extension := rfl

theorem has_add_self (b : BidsName) (k : String) (v : Option String) :
    (b.add k v).has k = true := by
  rcases b with ⟨cs, e⟩
  simp only [BidsName.add, BidsName.has]
  induction cs with
  | nil => simp [setKeyComp]
  | cons c cs ih =>
    simp only [setKeyComp]
    split
    · simp
    · simp [ih]

theorem has_add_ne (b : BidsName) (k k2 : String) (v : Option String) (h : k ≠ k2) :
    (b.add k2 v).has k = b.has k := by
  rcases b with ⟨cs, e⟩
  simp only [BidsName.add, BidsName.has]
  induction cs with
  | nil => simp [setKeyComp, beq_eq_false_iff_ne, Ne.symm h]
  | cons c cs ih =>
    simp only [setKeyComp]
    split
    · next hc =>
      have hc2 : c.1 = k2 := by simpa using hc
      simp [hc2]
    · simp [ih]

theorem has_remove_self (b : BidsName) (k : String) :
    (b.remove k).has k = false := by
  rcases b with ⟨cs, e⟩
  simp only [BidsName.remove, BidsName.has, removeKey]
  induction cs with
  | nil => simp
  | cons c cs ih =>
    simp only [List.filter_cons]
    split
    · next hc =>
      have hc2 : (c.1 == k) = false := by simpa using hc
      simp [hc2, ih]
    · simp [ih]

theorem has_remove_ne (b : BidsName) (k t : String) (h : k ≠ t) :
    (b.remove t).has k = b.has k := by
  rcases b with ⟨cs, e⟩
  simp only [BidsName.remove, BidsName.has, removeKey]
  induction cs with
  | nil => simp
  | cons c cs ih =>
    simp only [List.filter_cons]
    split
    · simp [ih]
    · next hc =>
      have hc2 : c.1 = t := by simpa using hc
      simp [hc2, beq_eq_false_iff_ne, Ne.symm h, ih]

theorem has_remove_mono (b : BidsName) (k t : String) (h : (b.remove t).has k = true) :
    b.has k = true := by
  by_cases hkt : k = t
  · subst hkt
    rw [has_remove_self] at h
    exact absurd h (by simp)
  · rwa [has_remove_ne b k t hkt] at h

theorem has_value_add_ne (b : BidsName) (k k2 v : String) (w : Option String) (h : k ≠ k2) :
    (b.add k2 w).has_value k v = b.has_value k v := by
  rcases b with ⟨cs, e⟩
  simp only [BidsName.add, BidsName.has_value]
  induction cs with
  | nil => simp [setKeyComp, beq_eq_false_iff_ne, Ne.symm h]
  | cons c cs ih =>
    simp only [setKeyComp]
    split
    · next hc =>
      have hc2 : c.1 = k2 := by simpa using hc
      have hkk : (k2 == k) = false := by simp [Ne.symm h]
      simp [hc2, hkk]
    · simp [ih]

theorem has_value_remove_self (b : BidsName) (k v : String) :
    (b.remove k).has_value k v = false := by
  rcases b with ⟨cs, e⟩
  simp only [BidsName.remove, BidsName.has_value, removeKey]
  induction cs with
  | nil => simp
  | cons c cs ih =>
    simp only [List.filter_cons]
    split
    · next hc =>
      have hc2 : (c.1 == k) = false := by simpa using hc
      simp [hc2, ih]
    · simp [ih]

theorem has_value_remove_ne (b : BidsName) (k t v : String) (h : k ≠ t) :
    (b.remove t).has_value k v = b.has_value k v := by
  rcases b with ⟨cs, e⟩
  simp only [BidsName.remove, BidsName.has_value, removeKey]
  induction cs with
  | nil => simp
  | cons c cs ih =>
    simp only [List.filter_cons]
    split
    · simp [ih]
    · next hc =>
      have hc2 : c.1 = t := by simpa using hc
      simp [hc2, beq_eq_false_iff_ne, Ne.symm h, ih]

theorem has_value_remove_mono (b : BidsName) (k t v : String)
    (h : (b.remove t).has_value k v = true) : b.has_value k v = true := by
  by_cases hkt : k = t
  · subst hkt
    rw [has_value_remove_self] at h
    exact absurd h (by simp)
  · rwa [has_value_remove_ne b k t v hkt] at h

theorem has_value_imp_has (b : BidsName) (k v : String) (h : b.has_value k v = true) :
    b.has k = true := by
  simp only [BidsName.has_value, List.any_eq_true, Bool.and_eq_true] at h
  obtain ⟨c, hc, h1, h2⟩ := h
  simp only [BidsName.has, List.any_eq_true]
  exact ⟨c, hc, h1⟩

theorem get_add_self (b : BidsName) (k : String) (v : Option String) :
    (b.add k v).get k = v := by
  rcases b with ⟨cs, e⟩
  simp only [BidsName.add, BidsName.get]
  induction cs with
  | nil => simp [setKeyComp]
  | cons c cs ih =>
    simp only [setKeyComp]
    split
    · simp
    · next hc =>
      have hc2 : (c.1 == k) = false := by simpa using hc
      simp [List.find?_cons, hc2, ih]

theorem get_add_ne (b : BidsName) (k k2 : String) (v : Option String) (h : k ≠ k2) :
    (b.add k2 v).get k = b.get k := by
  rcases b with ⟨cs, e⟩
  simp only [BidsName.add, BidsName.get]
  induction cs with
  | nil => simp [setKeyComp, beq_eq_false_iff_ne, Ne.symm h]
  | cons c cs ih =>
    simp only [setKeyComp]
    split
    · next hc =>
      have hc2 : c.1 = k2 := by simpa using hc
      have hkk : (k2 == k) = false := by simp [Ne.symm h]
      simp only [List.find?]
      rw [hc2, hkk]
    · simp only [List.find?]
      cases hpc : (c.1 == k) with
      | true => rfl
      | false => exact ih

theorem get_remove_ne (b : BidsName) (k t : String) (h : k ≠ t) :
    (b.remove t).get k = b.get k := by
  rcases b with ⟨cs, e⟩
  simp only [BidsName.remove, BidsName.get, removeKey]
  induction cs with
  | nil => simp
  | cons c cs ih =>
    simp only [List.filter_cons]
    split
    · simp only [List.find?]
      cases hpc : (c.1 == k) with
      | true => rfl
      | false => exact ih
    · next hc =>
      have hc2 : c.1 = t := by simpa using hc
      simp only [List.find?]
      have hck : (c.1 == k) = false := by simp [hc2, Ne.symm h]
      rw [hck]
      exact ih

theorem contra_false {x y : Bool} (mono : x = true → y = true) (hy : y = false) : x = false := by
  cases hx : x
  · rfl
  · exact absurd (mono hx) (by simp [hy])

theorem echoRule_ext (b : BidsName) : (echoRule b).extension = b.extension := by
  unfold echoRule
  cases matchEcho b <;> rfl

theorem echoRunRule_ext (b : BidsName) : (echoRunRule b).extension = b.extension := by
  unfold echoRunRule
  split <;> rfl

theorem mtwRule_ext (b : BidsName) : (mtwRule b).extension = b.extension := by
  unfold mtwRule
  split <;> rfl

theorem phRule_ext (b : BidsName) : (phRule b).extension = b.extension := by
  unfold phRule
  split <;> rfl

theorem t2MagRule_ext (b : BidsName) : (t2MagRule b).extension = b.extension := by
  unfold t2MagRule
  split <;> rfl

theorem aspireRule_ext (b : BidsName) : (aspireRule b).extension = b.extension := by
  unfold aspireRule
  split <;> rfl

theorem dwiRun1Rule_ext (b : BidsName) : (dwiRun1Rule b).extension = b.extension := by
  unfold dwiRun1Rule
  split <;> rfl

theorem dwiRun2Rule_ext (b : BidsName) : (dwiRun2Rule b).extension = b.extension := by
  unfold dwiRun2Rule
  split <;> rfl

theorem renameRules_ext (b : BidsName) : (renameRules b).extension = b.extension := by
  unfold renameRules
  rw [dwiRun2Rule_ext, dwiRun1Rule_ext, aspireRule_ext, t2MagRule_ext, phRule_ext, mtwRule_ext,
    echoRunRule_ext, echoRule_ext]

theorem echoRule_has_mono (b : BidsName) (k : String) (hk : k ≠ "echo")
    (h : (echoRule b).has k = true) : b.has k = true := by
  unfold echoRule at h
  cases hm : matchEcho b with
  | none => rwa [hm] at h
  | some td =>
    rw [hm, has_add_ne _ _ _ _ hk] at h
    exact has_remove_mono _ _ _ h

theorem echoRunRule_has_ne (b : BidsName) (k : String) (h : k ≠ "run") :
    (echoRunRule b).has k = b.has k := by
  unfold echoRunRule
  split
  · exact has_remove_ne b k "run" h
  · rfl

theorem echoRunRule_has_value_ne (b : BidsName) (k v : String) (h : k ≠ "run") :
    (echoRunRule b).has_value k v = b.has_value k v := by
  unfold echoRunRule
  split
  · exact has_value_remove_ne b k "run" v h
  · rfl

theorem echoRunRule_run_mono (b : BidsName) (h : (echoRunRule b).has "run" = true) :
    b.has "run" = true := by
  unfold echoRunRule at h
  split at h
  · exact has_remove_mono _ _ _ h
  · exact h

theorem mtwRule_has_ne (b : BidsName) (k : String) (h : k ≠ "run") :
    (mtwRule b).has k = b.has k := by
  unfold mtwRule
  split
  · exact has_remove_ne b k "run" h
  · rfl

theorem mtwRule_has_value_ne (b : BidsName) (k v : String) (h : k ≠ "run") :
    (mtwRule b).has_value k v = b.has_value k v := by
  unfold mtwRule
  split
  · exact has_value_remove_ne b k "run" v h
  · rfl

theorem mtwRule_run_mono (b : BidsName) (h : (mtwRule b).has "run" = true) :
    b.has "run" = true := by
  unfold mtwRule at h
  split at h
  · exact has_remove_mono _ _ _ h
  · exact h

theorem phRule_has_ne (b : BidsName) (k : String) (h1 : k ≠ "ph") (h2 : k ≠ "part") :
    (phRule b).has k = b.has k := by
  unfold phRule
  split
  · rw [has_add_ne _ _ _ _ h2, has_remove_ne _ _ _ h1]
  · rfl

theorem phRule_has_value_ne (b : BidsName) (k v : String) (h1 : k ≠ "ph") (h2 : k ≠ "part") :
    (phRule b).has_value k v = b.has_value k v := by
  unfold phRule
  split
  · rw [has_value_add_ne _ _ _ _ _ h2, has_value_remove_ne _ _ _ _ h1]
  · rfl

theorem phRule_part_fwd (b : BidsName) (h : b.has "part" = true) :
    (phRule b).has "part" = true := by
  unfold phRule
  split
  · exact has_add_self _ _ _
  · exact h

theorem phRule_ph_false (b : BidsName) : (phRule b).has "ph" = false := by
  unfold phRule
  split
  · rw [has_add_ne _ _ _ _ (by decide), has_remove_self]
  · next hc => simpa using hc

theorem t2MagRule_has_ne (b : BidsName) (k : String) (h : k ≠ "part") :
    (t2MagRule b).has k = b.has k := by
  unfold t2MagRule
  split
  · exact has_add_ne b k "part" _ h
  · rfl

theorem t2MagRule_has_value_ne (b : BidsName) (k v : String) (h : k ≠ "part") :
    (t2MagRule b).has_value k v = b.has_value k v := by
  unfold t2MagRule
  split
  · exact has_value_add_ne b k "part" v _ h
  · rfl

theorem t2MagRule_part_fwd (b : BidsName) (h : b.has "part" = true) :
    (t2MagRule b).has "part" = true := by
  unfold t2MagRule
  split
  · exact has_add_self _ _ _
  · exact h

theorem aspireRule_has_ne (b : BidsName) (k : String) (h1 : k ≠ "run") (h2 : k ≠ "T2starw")
    (h3 : k ≠ "T2starmap") : (aspireRule b).has k = b.has k := by
  unfold aspireRule
  split
  · rw [has_add_ne _ _ _ _ h3, has_remove_ne _ _ _ h2, has_remove_ne _ _ _ h1]
  · rfl

theorem aspireRule_has_value_ne (b : BidsName) (k v : String) (h1 : k ≠ "run")
    (h2 : k ≠ "T2starw") (h3 : k ≠ "T2starmap") :
    (aspireRule b).has_value k v = b.has_value k v := by
  unfold aspireRule
  split
  · rw [has_value_add_ne _ _ _ _ _ h3, has_value_remove_ne _ _ _ _ h2,
      has_value_remove_ne _ _ _ _ h1]
  · rfl

theorem aspireRule_run_mono (b : BidsName) (h : (aspireRule b).has "run" = true) :
    b.has "run" = true := by
  unfold aspireRule at h
  split at h
  · rw [has_add_ne _ _ _ _ (by decide)] at h
    exact has_remove_mono _ _ _ (has_remove_mono _ _ _ h)
  · exact h

theorem aspireRule_t2_mono (b : BidsName) (h : (aspireRule b).has "T2starw" = true) :
    b.has "T2starw" = true := by
  unfold aspireRule at h
  split at h
  · rw [has_add_ne _ _ _ _ (by decide)] at h
    exact has_remove_mono _ _ _ (has_remove_mono _ _ _ h)
  · exact h

theorem dwiRun1Rule_has_ne (b : BidsName) (k : String) (h : k ≠ "run") :
    (dwiRun1Rule b).has k = b.has k := by
  unfold dwiRun1Rule
  split
  · exact has_remove_ne b k "run" h
  · rfl

theorem dwiRun1Rule_has_value_ne (b : BidsName) (k v : String) (h : k ≠ "run") :
    (dwiRun1Rule b).has_value k v = b.has_value k v := by
  unfold dwiRun1Rule
  split
  · exact has_value_remove_ne b k "run" v h
  · rfl

theorem dwiRun1Rule_run_mono (b : BidsName) (h : (dwiRun1Rule b).has "run" = true) :
    b.has "run" = true := by
  unfold dwiRun1Rule at h
  split at h
  · exact has_remove_mono _ _ _ h
  · exact h

theorem dwiRun2Rule_has_ne (b : BidsName) (k : String) (h1 : k ≠ "run") (h2 : k ≠ "part") :
    (dwiRun2Rule b).has k = b.has k := by
  unfold dwiRun2Rule
  split
  · rw [has_add_ne _ _ _ _ h2, has_remove_ne _ _ _ h1]
  · rfl

theorem dwiRun2Rule_has_value_ne (b : BidsName) (k v : String) (h1 : k ≠ "run")
    (h2 : k ≠ "part") : (dwiRun2Rule b).has_value k v = b.has_value k v := by
  unfold dwiRun2Rule
  split
  · rw [has_value_add_ne _ _ _ _ _ h2, has_value_remove_ne _ _ _ _ h1]
  · rfl

theorem dwiRun2Rule_run_mono (b : BidsName) (h : (dwiRun2Rule b).has "run" = true) :
    b.has "run" = true := by
  unfold dwiRun2Rule at h
  split at h
  · rw [has_add_ne _ _ _ _ (by decide)] at h
    exact has_remove_mono _ _ _ h
  · exact h

theorem dwiRun2Rule_runval_mono (b : BidsName) (v : String)
    (h : (dwiRun2Rule b).has_value "run" v = true) : b.has_value "run" v = true := by
  unfold dwiRun2Rule at h
  split at h
  · rw [has_value_add_ne _ _ _ _ _ (by decide)] at h
    exact has_value_remove_mono _ _ _ _ h
  · exact h

theorem dwiRun2Rule_part_fwd (b : BidsName) (h : b.has "part" = true) :
    (dwiRun2Rule b).has "part" = true := by
  unfold dwiRun2Rule
  split
  · exact has_add_self _ _ _
  · exact h

theorem renameRules_idem (b : BidsName) (hE : matchEcho (renameRules b) = none) :
    renameRules (renameRules b) = renameRules b := by
  unfold renameRules at hE ⊢
  obtain ⟨c1, hc1def⟩ : ∃ x, echoRule b = x := ⟨_, rfl⟩
  rw [hc1def] at hE ⊢
  obtain ⟨c2, hc2def⟩ : ∃ x, echoRunRule c1 = x := ⟨_, rfl⟩
  rw [hc2def] at hE ⊢
  obtain ⟨c3, hc3def⟩ : ∃ x, mtwRule c2 = x := ⟨_, rfl⟩
  rw [hc3def] at hE ⊢
  obtain ⟨c4, hc4def⟩ : ∃ x, phRule c3 = x := ⟨_, rfl⟩
  rw [hc4def] at hE ⊢
  obtain ⟨c5, hc5def⟩ : ∃ x, t2MagRule c4 = x := ⟨_, rfl⟩
  rw [hc5def] at hE ⊢
  obtain ⟨c6, hc6def⟩ : ∃ x, aspireRule c5 = x := ⟨_, rfl⟩
  rw [hc6def] at hE ⊢
  obtain ⟨c7, hc7def⟩ : ∃ x, dwiRun1Rule c6 = x := ⟨_, rfl⟩
  rw [hc7def] at hE ⊢
  obtain ⟨c8, hc8def⟩ : ∃ x, dwiRun2Rule c7 = x := ⟨_, rfl⟩
  rw [hc8def] at hE ⊢
  -- single-rule key-preservation equations between the pass-1 intermediates
  have m87eq : ∀ k : String, k ≠ "run" → k ≠ "part" → c8.has k = c7.has k := by
    intro k h1 h2
    rw [← hc8def]
    exact dwiRun2Rule_has_ne c7 k h1 h2
  have m76eq : ∀ k : String, k ≠ "run" → c7.has k = c6.has k := by
    intro k h1
    rw [← hc7def]
    exact dwiRun1Rule_has_ne c6 k h1
  have m65eq : ∀ k : String, k ≠ "run" → k ≠ "T2starw" → k ≠ "T2starmap" →
      c6.has k = c5.has k := by
    intro k h1 h2 h3
    rw [← hc6def]
    exact aspireRule_has_ne c5 k h1 h2 h3
  have m54eq : ∀ k : String, k ≠ "part" → c5.has k = c4.has k := by
    intro k h1
    rw [← hc5def]
    exact t2MagRule_has_ne c4 k h1
  have m43eq : ∀ k : String, k ≠ "ph" → k ≠ "part" → c4.has k = c3.has k := by
    intro k h1 h2
    rw [← hc4def]
    exact phRule_has_ne c3 k h1 h2
  have m32eq : ∀ k : String, k ≠ "run" → c3.has k = c2.has k := by
    intro k h1
    rw [← hc3def]
    exact mtwRule_has_ne c2 k h1
  have m21eq : ∀ k : String, k ≠ "run" → c2.has k = c1.has k := by
    intro k h1
    rw [← hc2def]
    exact echoRunRule_has_ne c1 k h1
  have v87eq : ∀ k v : String, k ≠ "run" → k ≠ "part" → c8.has_value k v = c7.has_value k v := by
    intro k v h1 h2
    rw [← hc8def]
    exact dwiRun2Rule_has_value_ne c7 k v h1 h2
  have v76eq : ∀ k v : String, k ≠ "run" → c7.has_value k v = c6.has_value k v := by
    intro k v h1
    rw [← hc7def]
    exact dwiRun1Rule_has_value_ne c6 k v h1
  have v65eq : ∀ k v : String, k ≠ "run" → k ≠ "T2starw" → k ≠ "T2starmap" →
      c6.has_value k v = c5.has_value k v := by
    intro k v h1 h2 h3
    rw [← hc6def]
    exact aspireRule_has_value_ne c5 k v h1 h2 h3
  have v54eq : ∀ k v : String, k ≠ "part" → c5.has_value k v = c4.has_value k v := by
    intro k v h1
    rw [← hc5def]
    exact t2MagRule_has_value_ne c4 k v h1
  have v43eq : ∀ k v : String, k ≠ "ph" → k ≠ "part" → c4.has_value k v = c3.has_value k v := by
    intro k v h1 h2
    rw [← hc4def]
    exact phRule_has_value_ne c3 k v h1 h2
  have v32eq : ∀ k v : String, k ≠ "run" → c3.has_value k v = c2.has_value k v := by
    intro k v h1
    rw [← hc3def]
    exact mtwRule_has_value_ne c2 k v h1
  have v21eq : ∀ k v : String, k ≠ "run" → c2.has_value k v = c1.has_value k v := by
    intro k v h1
    rw [← hc2def]
    exact echoRunRule_has_value_ne c1 k v h1
  -- run-component monotonicity (the rules never add a run component)
  have r87 : c8.has "run" = true → c7.has "run" = true := by
    intro hx
    rw [← hc8def] at hx
    exact dwiRun2Rule_run_mono c7 hx
  have r76 : c7.has "run" = true → c6.has "run" = true := by
    intro hx
    rw [← hc7def] at hx
    exact dwiRun1Rule_run_mono c6 hx
  have r65 : c6.has "run" = true → c5.has "run" = true := by
    intro hx
    rw [← hc6def] at hx
    exact aspireRule_run_mono c5 hx
  have r54 : c5.has "run" = true → c4.has "run" = true := by
    intro hx
    rwa [m54eq "run" (by decide)] at hx
  have r43 : c4.has "run" = true → c3.has "run" = true := by
    intro hx
    rwa [m43eq "run" (by decide) (by decide)] at hx
  have r32 : c3.has "run" = true → c2.has "run" = true := by
    intro hx
    rw [← hc3def] at hx
    exact mtwRule_run_mono c2 hx
  have r21 : c2.has "run" = true → c1.has "run" = true := by
    intro hx
    rw [← hc2def] at hx
    exact echoRunRule_run_mono c1 hx
  -- part-component forward preservation (part is never removed)
  have p45 : c4.has "part" = true → c5.has "part" = true := by
    intro hx
    rw [← hc5def]
    exact t2MagRule_part_fwd c4 hx
  have p56 : c5.has "part" = true → c6.has "part" = true := by
    intro hx
    rwa [m65eq "part" (by decide) (by decide) (by decide)]
  have p67 : c6.has "part" = true → c7.has "part" = true := by
    intro hx
    rwa [m76eq "part" (by decide)]
  have p78 : c7.has "part" = true → c8.has "part" = true := by
    intro hx
    rw [← hc8def]
    exact dwiRun2Rule_part_fwd c7 hx
  -- rule 3 on the patched name: no echo token is left
  have s3 : echoRule c8 = c8 := by
    unfold echoRule
    rw [hE]
  -- rule 4 on the patched name
  have s4 : echoRunRule c8 = c8 := by
    have hcond : (c8.has "echo" && c8.has "run" && !c8.has_value "task" "rest") = false := by
      cases hec : c8.has "echo" with
      | false => simp [hec]
      | true =>
        cases hr : c8.has "run" with
        | false => simp [hec, hr]
        | true =>
          cases ht : c8.has_value "task" "rest" with
          | true => simp [hec, hr, ht]
          | false =>
            exfalso
            have hec1 : c1.has "echo" = true := by
              rw [m87eq "echo" (by decide) (by decide), m76eq "echo" (by decide),
                m65eq "echo" (by decide) (by decide) (by decide), m54eq "echo" (by decide),
                m43eq "echo" (by decide) (by decide), m32eq "echo" (by decide),
                m21eq "echo" (by decide)] at hec
              exact hec
            have hr1 : c1.has "run" = true := r21 (r32 (r43 (r54 (r65 (r76 (r87 hr))))))
            have ht1 : c1.has_value "task" "rest" = false := by
              rw [v87eq "task" "rest" (by decide) (by decide), v76eq "task" "rest" (by decide),
                v65eq "task" "rest" (by decide) (by decide) (by decide),
                v54eq "task" "rest" (by decide), v43eq "task" "rest" (by decide) (by decide),
                v32eq "task" "rest" (by decide), v21eq "task" "rest" (by decide)] at ht
              exact ht
            have hc2fire : c2 = c1.remove "run" := by
              rw [← hc2def]
              unfold echoRunRule
              rw [hec1, hr1, ht1]
              rfl
            have hrun2 : c2.has "run" = false := by
              rw [hc2fire]
              exact has_remove_self c1 "run"
            have hrun8 : c8.has "run" = false :=
              contra_false (fun hx => r32 (r43 (r54 (r65 (r76 (r87 hx)))))) hrun2
            rw [hr] at hrun8
            cases hrun8
    unfold echoRunRule
    rw [hcond]
    rfl
  -- rule 5 on the patched name
  have s5 : mtwRule c8 = c8 := by
    have hcond : (c8.has_value "acq" "mtw" && c8.has "run") = false := by
      cases hacq : c8.has_value "acq" "mtw" with
      | false => simp [hacq]
      | true =>
        cases hr : c8.has "run" with
        | false => simp [hacq, hr]
        | true =>
          exfalso
          have hacq2 : c2.has_value "acq" "mtw" = true := by
            rw [v87eq "acq" "mtw" (by decide) (by decide), v76eq "acq" "mtw" (by decide),
              v65eq "acq" "mtw" (by decide) (by decide) (by decide),
              v54eq "acq" "mtw" (by decide), v43eq "acq" "mtw" (by decide) (by decide),
              v32eq "acq" "mtw" (by decide)] at hacq
            exact hacq
          have hr2 : c2.has "run" = true := r32 (r43 (r54 (r65 (r76 (r87 hr)))))
          have hc3fire : c3 = c2.remove "run" := by
            rw [← hc3def]
            unfold mtwRule
            rw [hacq2, hr2]
            rfl
          have hrun3 : c3.has "run" = false := by
            rw [hc3fire]
            exact has_remove_self c2 "run"
          have hrun8 : c8.has "run" = false :=
            contra_false (fun hx => r43 (r54 (r65 (r76 (r87 hx))))) hrun3
          rw [hr] at hrun8
          cases hrun8
    unfold mtwRule
    rw [hcond]
    rfl
  -- rule 6 on the patched name: the ph token was consumed in pass 1
  have s6 : phRule c8 = c8 := by
    have hph4 : c4.has "ph" = false := by
      rw [← hc4def]
      exact phRule_ph_false c3
    have hph8 : c8.has "ph" = false := by
      rw [m87eq "ph" (by decide) (by decide), m76eq "ph" (by decide),
        m65eq "ph" (by decide) (by decide) (by decide), m54eq "ph" (by decide)]
      exact hph4
    unfold phRule
    rw [hph8]
    rfl
  -- rule 7 on the patched name
  have s7 : t2MagRule c8 = c8 := by
    have hcond : (c8.has "T2starw" && c8.has "echo" && !c8.has "part") = false := by
      cases ht2 : c8.has "T2starw" with
      | false => simp [ht2]
      | true =>
        cases hec : c8.has "echo" with
        | false => simp [ht2, hec]
        | true =>
          cases hp : c8.has "part" with
          | true => simp [ht2, hec, hp]
          | false =>
            exfalso
            have ht24 : c4.has "T2starw" = true := by
              rw [m87eq "T2starw" (by decide) (by decide), m76eq "T2starw" (by decide)] at ht2
              rw [← hc6def] at ht2
              have hstep := aspireRule_t2_mono c5 ht2
              rwa [m54eq "T2starw" (by decide)] at hstep
            have hec4 : c4.has "echo" = true := by
              rw [m87eq "echo" (by decide) (by decide), m76eq "echo" (by decide),
                m65eq "echo" (by decide) (by decide) (by decide), m54eq "echo" (by decide)] at hec
              exact hec
            have hp4 : c4.has "part" = false :=
              contra_false (fun hx => p78 (p67 (p56 (p45 hx)))) hp
            have hc5fire : c5 = c4.add "part" (some "mag") := by
              rw [← hc5def]
              unfold t2MagRule
              rw [ht24, hec4, hp4]
              rfl
            have hp5 : c5.has "part" = true := by
              rw [hc5fire]
              exact has_add_self c4 "part" (some "mag")
            have hp8 : c8.has "part" = true := p78 (p67 (p56 hp5))
            rw [hp] at hp8
            cases hp8
    unfold t2MagRule
    rw [hcond]
    rfl
  -- rule 8 on the patched name
  have s8 : aspireRule c8 = c8 := by
    have hcond : (c8.has_value "acq" "aspire" && c8.has "T2starw" && !c8.has "desc"
        && !c8.has "part") = false := by
      cases hacq : c8.has_value "acq" "aspire" with
      | false => simp [hacq]
      | true =>
        cases ht2 : c8.has "T2starw" with
        | false => simp [hacq, ht2]
        | true =>
          cases hd : c8.has "desc" with
          | true => simp [hacq, ht2, hd]
          | false =>
            cases hp : c8.has "part" with
            | true => simp [hacq, ht2, hd, hp]
            | false =>
              exfalso
              have hacq5 : c5.has_value "acq" "aspire" = true := by
                rw [v87eq "acq" "aspire" (by decide) (by decide),
                  v76eq "acq" "aspire" (by decide),
                  v65eq "acq" "aspire" (by decide) (by decide) (by decide)] at hacq
                exact hacq
              have ht25 : c5.has "T2starw" = true := by
                rw [m87eq "T2starw" (by decide) (by decide),
                  m76eq "T2starw" (by decide)] at ht2
                rw [← hc6def] at ht2
                exact aspireRule_t2_mono c5 ht2
              have hd5 : c5.has "desc" = false := by
                rw [m87eq "desc" (by decide) (by decide), m76eq "desc" (by decide),
                  m65eq "desc" (by decide) (by decide) (by decide)] at hd
                exact hd
              have hp5 : c5.has "part" = false :=
                contra_false (fun hx => p78 (p67 (p56 hx))) hp
              have hc6fire : c6 = ((c5.remove "run").remove "T2starw").add "T2starmap" none := by
                rw [← hc6def]
                unfold aspireRule
                rw [hacq5, ht25, hd5, hp5]
                rfl
              have ht26 : c6.has "T2starw" = false := by
                rw [hc6fire, has_add_ne _ _ _ _ (by decide), has_remove_self]
              have ht28 : c8.has "T2starw" = false := by
                rw [m87eq "T2starw" (by decide) (by decide), m76eq "T2starw" (by decide)]
                exact ht26
              rw [ht2] at ht28
              cases ht28
    unfold aspireRule
    rw [hcond]
    rfl
  -- rule 9 on the patched name
  have s9 : dwiRun1Rule c8 = c8 := by
    have hcond : (c8.has "dwi" && c8.has_value "run" "1") = false := by
      cases hdwi : c8.has "dwi" with
      | false => simp [hdwi]
      | true =>
        cases hrv : c8.has_value "run" "1" with
        | false => simp [hdwi, hrv]
        | true =>
          exfalso
          have hrv7 : c7.has_value "run" "1" = true := by
            rw [← hc8def] at hrv
            exact dwiRun2Rule_runval_mono c7 "1" hrv
          have hdwi7 : c7.has "dwi" = true := by
            rw [m87eq "dwi" (by decide) (by decide)] at hdwi
            exact hdwi
          by_cases hfire : (c6.has "dwi" && c6.has_value "run" "1") = true
          · have hc7fire : c7 = c6.remove "run" := by
              rw [← hc7def]
              unfold dwiRun1Rule
              rw [hfire]
              rfl
            rw [hc7fire, has_value_remove_self] at hrv7
            cases hrv7
          · have hc7id : c7 = c6 := by
              rw [← hc7def]
              unfold dwiRun1Rule
              rw [if_neg hfire]
            apply hfire
            rw [← hc7id]
            rw [hdwi7, hrv7]
            rfl
    unfold dwiRun1Rule
    rw [hcond]
    rfl
  -- rule 10 on the patched name
  have s10 : dwiRun2Rule c8 = c8 := by
    have hcond : (c8.has "dwi" && c8.has_value "run" "2") = false := by
      cases hdwi : c8.has "dwi" with
      | false => simp [hdwi]
      | true =>
        cases hrv : c8.has_value "run" "2" with
        | false => simp [hdwi, hrv]
        | true =>
          exfalso
          by_cases hfire : (c7.has "dwi" && c7.has_value "run" "2") = true
          · have hc8fire : c8 = (c7.remove "run").add "part" (some "phase") := by
              rw [← hc8def]
              unfold dwiRun2Rule
              rw [hfire]
              rfl
            rw [hc8fire, has_value_add_ne _ _ _ _ _ (by decide), has_value_remove_self] at hrv
            cases hrv
          · have hc8id : c8 = c7 := by
              rw [← hc8def]
              unfold dwiRun2Rule
              rw [if_neg hfire]
            apply hfire
            rw [← hc8id]
            rw [hdwi, hrv]
            rfl
    unfold dwiRun2Rule
    rw [hcond]
    rfl
  rw [s3, s4, s5, s6, s7, s8, s9, s10]

/-- C1 counterexample: applying the rule sequence twice is NOT idempotent.  The
name `sub-01_run-3_TB1TFL.nii` is patched to `sub-01_run-2_TB1TFL_acq-anat.nii`
by one application, and a second application changes that name again (the
TB1TFL rule halves the run number once more and flips `acq` to `sfam`). -/
theorem patch_file_path_not_idem_tb1tfl :
    patch_file_path ⟨[("sub", some "01"), ("run", some "3"), ("TB1TFL", none)], "nii"⟩
        = PatchOutcome.kept
            ⟨[("sub", some "01"), ("run", some "2"), ("TB1TFL", none), ("acq", some "anat")],
              "nii"⟩
    ∧ patch_file_path
          ⟨[("sub", some "01"), ("run", some "2"), ("TB1TFL", none), ("acq", some "anat")],
            "nii"⟩
        ≠ PatchOutcome.kept
            ⟨[("sub", some "01"), ("run", some "2"), ("TB1TFL", none), ("acq", some "anat")],
              "nii"⟩ := by
  decide

/-- C1 (amended): for every file kept (not deleted) by `patch_file_path` whose
name carries no TB1TFL marker and whose patched name retains no bare
`e<digit>` echo token, applying the rule sequence a second time produces no
further change.  (TB1TFL names are excluded because the TB1TFL rule is not
idempotent, see the counterexample.) -/
theorem patch_file_path_idem_no_tb1tfl (b b2 : BidsName)
    (h : patch_file_path b = PatchOutcome.kept b2)
    (hT : b.has "TB1TFL" = false)
    (hE : matchEcho b2 = none) :
    patch_file_path b2 = PatchOutcome.kept b2 := by
  unfold patch_file_path at h
  by_cases hd1 : mp2rageDelete b = true
  · rw [if_pos hd1] at h
    simp at h
  rw [if_neg hd1] at h
  by_cases hd2 : roiDelete b = true
  · rw [if_pos hd2] at h
    simp at h
  rw [if_neg hd2] at h
  have hTrr : (renameRules b).has "TB1TFL" = false := by
    unfold renameRules
    rw [dwiRun2Rule_has_ne _ _ (by decide) (by decide), dwiRun1Rule_has_ne _ _ (by decide),
      aspireRule_has_ne _ _ (by decide) (by decide) (by decide), t2MagRule_has_ne _ _ (by decide),
      phRule_has_ne _ _ (by decide) (by decide), mtwRule_has_ne _ _ (by decide),
      echoRunRule_has_ne _ _ (by decide)]
    exact contra_false (echoRule_has_mono b "TB1TFL" (by decide)) hT
  have htb : tb1tflRule (renameRules b) = Except.ok (renameRules b) := by
    unfold tb1tflRule
    rw [hTrr]
    rfl
  rw [htb] at h
  have hbr : renameRules b = b2 := by
    have h2 : PatchOutcome.kept (renameRules b) = PatchOutcome.kept b2 := h
    injection h2
  subst hbr
  have hid := renameRules_idem b hE
  unfold patch_file_path
  have hd1p : ¬ mp2rageDelete (renameRules b) = true := by
    intro hx
    apply hd1
    unfold mp2rageDelete at hx ⊢
    rw [Bool.and_eq_true] at hx
    obtain ⟨hm, hext⟩ := hx
    rw [renameRules_ext] at hext
    have hmb : b.has "MP2RAGE" = true := by
      apply echoRule_has_mono b "MP2RAGE" (by decide)
      unfold renameRules at hm
      rw [dwiRun2Rule_has_ne _ _ (by decide) (by decide), dwiRun1Rule_has_ne _ _ (by decide),
        aspireRule_has_ne _ _ (by decide) (by decide) (by decide),
        t2MagRule_has_ne _ _ (by decide), phRule_has_ne _ _ (by decide) (by decide),
        mtwRule_has_ne _ _ (by decide), echoRunRule_has_ne _ _ (by decide)] at hm
      exact hm
    rw [Bool.and_eq_true]
    exact ⟨hmb, hext⟩
  have hd2p : ¬ roiDelete (renameRules b) = true := by
    intro hx
    apply hd2
    unfold roiDelete at hx ⊢
    apply echoRule_has_mono b "ROI1" (by decide)
    unfold renameRules at hx
    rw [dwiRun2Rule_has_ne _ _ (by decide) (by decide), dwiRun1Rule_has_ne _ _ (by decide),
      aspireRule_has_ne _ _ (by decide) (by decide) (by decide), t2MagRule_has_ne _ _ (by decide),
      phRule_has_ne _ _ (by decide) (by decide), mtwRule_has_ne _ _ (by decide),
      echoRunRule_has_ne _ _ (by decide)] at hx
    exact hx
  rw [if_neg hd1p, if_neg hd2p, hid, htb]

/-- C1 witness: a concrete echo-rule output (`sub-01_e2_bold.nii`, patched to
`sub-01_bold_echo-2.nii`) is a fixed point of a second application. -/
theorem patch_file_path_idem_witness :
    patch_file_path ⟨[("sub", some "01"), ("bold", none), ("echo", some "2")], "nii"⟩
      = PatchOutcome.kept ⟨[("sub", some "01"), ("bold", none), ("echo", some "2")], "nii"⟩ :=
  patch_file_path_idem_no_tb1tfl
    ⟨[("sub", some "01"), ("e2", none), ("bold", none)], "nii"⟩
    ⟨[("sub", some "01"), ("bold", none), ("echo", some "2")], "nii"⟩
    (by decide) (by decide) (by decide)

/-- C3: a file whose parsed name contains an MP2RAGE marker and whose extension
is `bval` or `bvec` is deleted by `patch_file_path`: no rename and no further
rule is applied to it. -/
theorem patch_file_path_deletes_mp2rage_gradients (b : BidsName)
    (h1 : b.has "MP2RAGE" = true) (h2 : b.extension = "bval" ∨ b.extension = "bvec") :
    patch_file_path b = PatchOutcome.deleted := by
  unfold patch_file_path
  have hd : mp2rageDelete b = true := by
    unfold mp2rageDelete
    rw [h1]
    rcases h2 with h2 | h2 <;> rw [h2] <;> rfl
  rw [if_pos hd]

/-- C3 witness: the MP2RAGE `bval` file `sub-01_MP2RAGE.bval` is deleted. -/
theorem patch_file_path_deletes_mp2rage_witness :
    patch_file_path ⟨[("sub", some "01"), ("MP2RAGE", none)], "bval"⟩
      = PatchOutcome.deleted :=
  patch_file_path_deletes_mp2rage_gradients _ (by decide) (Or.inl rfl)

/-- C5: for a name with both an echo and a run component, the echo/run rule
(rule 4) retains the run component exactly when the task component has value
`rest`; with any other task value (or no task at all) the run component is
removed. -/
theorem echo_run_rule_task_rest (b : BidsName)
    (he : b.has "echo" = true) (hr : b.has "run" = true) :
    (b.has_value "task" "rest" = true → (echoRunRule b).has "run" = true)
    ∧ (b.has_value "task" "rest" = false → (echoRunRule b).has "run" = false) := by
  constructor
  · intro ht
    unfold echoRunRule
    rw [he, hr, ht]
    simp [hr]
  · intro ht
    unfold echoRunRule
    rw [he, hr, ht]
    simp [has_remove_self]

/-- C5 witness: a `task-rest` echo file keeps its run component. -/
theorem echo_run_rule_task_rest_witness :
    (echoRunRule ⟨[("task", some "rest"), ("echo", some "1"), ("run", some "2")], "nii"⟩).has
      "run" = true :=
  (echo_run_rule_task_rest _ (by decide) (by decide)).1 (by decide)

/-- Helper for the TB1TFL claims: on a name that carries a TB1TFL marker and
triggers no delete rule and no other rename rule, `patch_file_path` reduces to
the TB1TFL rule alone: the outcome is determined by the parse of the run
value. -/
theorem patch_clean_tb1tfl_eq (b : BidsName)
    (hT : b.has "TB1TFL" = true)
    (hm : b.has "MP2RAGE" = false)
    (hroi : b.has "ROI1" = false)
    (hec : matchEcho b = none)
    (hecho : b.has "echo" = false)
    (hmtw : b.has_value "acq" "mtw" = false)
    (ht2 : b.has "T2starw" = false)
    (hdwi : b.has "dwi" = false)
    (hph : b.has "ph" = false) :
    patch_file_path b =
      match runNumber? (b.get "run") with
      | some n =>
        PatchOutcome.kept ((b.add "acq" (some (if n % 2 == 1 then "anat" else "sfam"))).add
          "run" (some (toString (ceilHalf n))))
      | none => PatchOutcome.valueError := by
  have s3 : echoRule b = b := by
    unfold echoRule
    rw [hec]
  have s4 : echoRunRule b = b := by
    unfold echoRunRule
    rw [hecho]
    rfl
  have s5 : mtwRule b = b := by
    unfold mtwRule
    rw [hmtw]
    rfl
  have s6 : phRule b = b := by
    unfold phRule
    rw [hph]
    rfl
  have s7 : t2MagRule b = b := by
    unfold t2MagRule
    rw [ht2]
    rfl
  have s8 : aspireRule b = b := by
    unfold aspireRule
    rw [ht2]
    simp
  have s9 : dwiRun1Rule b = b := by
    unfold dwiRun1Rule
    rw [hdwi]
    rfl
  have s10 : dwiRun2Rule b = b := by
    unfold dwiRun2Rule
    rw [hdwi]
    rfl
  have hrr : renameRules b = b := by
    unfold renameRules
    rw [s3, s4, s5, s6, s7, s8, s9, s10]
  have hmp : mp2rageDelete b = false := by
    unfold mp2rageDelete
    rw [hm]
    rfl
  unfold patch_file_path
  rw [if_neg (show ¬ mp2rageDelete b = true by simp [hmp]),
    if_neg (show ¬ roiDelete b = true by simp [roiDelete, hroi]), hrr]
  cases hrn : runNumber? (b.get "run") with
  | none =>
    have htb : tb1tflRule b = Except.error () := by
      unfold tb1tflRule
      rw [hT, hrn]
      rfl
    rw [htb]
  | some n =>
    have htb : tb1tflRule b = Except.ok
        ((b.add "acq" (some (if n % 2 == 1 then "anat" else "sfam"))).add "run"
          (some (toString (ceilHalf n)))) := by
      unfold tb1tflRule
      rw [hT, hrn]
      rfl
    rw [htb]

/-- C4: a TB1TFL file that triggers no delete and no other rename rule maps
`run-3` to `acq-anat run-2`, `run-4` to `acq-sfam run-2`, and a missing run
component (run number defaults to 0) to `acq-sfam run-0`. -/
theorem patch_file_path_tb1tfl_run_mapping (b : BidsName)
    (hT : b.has "TB1TFL" = true)
    (hm : b.has "MP2RAGE" = false)
    (hroi : b.has "ROI1" = false)
    (hec : matchEcho b = none)
    (hecho : b.has "echo" = false)
    (hmtw : b.has_value "acq" "mtw" = false)
    (ht2 : b.has "T2starw" = false)
    (hdwi : b.has "dwi" = false)
    (hph : b.has "ph" = false) :
    (b.get "run" = some "3" → ∃ b2, patch_file_path b = PatchOutcome.kept b2
      ∧ b2.get "acq" = some "anat" ∧ b2.get "run" = some "2")
    ∧ (b.get "run" = some "4" → ∃ b2, patch_file_path b = PatchOutcome.kept b2
      ∧ b2.get "acq" = some "sfam" ∧ b2.get "run" = some "2")
    ∧ (b.get "run" = none → ∃ b2, patch_file_path b = PatchOutcome.kept b2
      ∧ b2.get "acq" = some "sfam" ∧ b2.get "run" = some "0") := by
  have hpiece := patch_clean_tb1tfl_eq b hT hm hroi hec hecho hmtw ht2 hdwi hph
  refine ⟨fun hget => ?_, fun hget => ?_, fun hget => ?_⟩
  · rw [hget] at hpiece
    have hrn : runNumber? (some "3") = some 3 := by decide
    rw [hrn] at hpiece
    refine ⟨_, hpiece, ?_, ?_⟩
    · rw [get_add_ne _ _ _ _ (by decide), get_add_self]
      decide
    · rw [get_add_self]
      decide
  · rw [hget] at hpiece
    have hrn : runNumber? (some "4") = some 4 := by decide
    rw [hrn] at hpiece
    refine ⟨_, hpiece, ?_, ?_⟩
    · rw [get_add_ne _ _ _ _ (by decide), get_add_self]
      decide
    · rw [get_add_self]
      decide
  · rw [hget] at hpiece
    have hrn : runNumber? none = some 0 := by decide
    rw [hrn] at hpiece
    refine ⟨_, hpiece, ?_, ?_⟩
    · rw [get_add_ne _ _ _ _ (by decide), get_add_self]
      decide
    · rw [get_add_self]
      decide

/-- C4 witness: `sub-01_run-3_TB1TFL.nii` is kept with `acq-anat` and `run-2`. -/
theorem patch_file_path_tb1tfl_witness :
    ∃ b2, patch_file_path ⟨[("sub", some "01"), ("run", some "3"), ("TB1TFL", none)], "nii"⟩
        = PatchOutcome.kept b2 ∧ b2.get "acq" = some "anat" ∧ b2.get "run" = some "2" :=
  (patch_file_path_tb1tfl_run_mapping _ (by decide) (by decide) (by decide) (by decide)
    (by decide) (by decide) (by decide) (by decide) (by decide)).1 (by decide)

/-- C9 counterexample: a TB1TFL file with the non-numeric run value `abc` and a
bare `e2` echo token does NOT raise: the echo/run rule removes the run
component first, so the TB1TFL rule sees no run value, defaults to 0 and the
file is renamed. -/
theorem tb1tfl_value_error_cex :
    patch_file_path ⟨[("e2", none), ("run", some "abc"), ("TB1TFL", none)], "nii"⟩
      = PatchOutcome.kept
          ⟨[("TB1TFL", none), ("echo", some "2"), ("acq", some "sfam"), ("run", some "0")],
            "nii"⟩ := by
  decide

/-- C9 (amended): a TB1TFL file whose run component survives to the TB1TFL
rule (no delete rule and no run-removing rename rule triggers) and whose run
value is a non-empty string that is not a valid integer literal makes
`patch_file_path` abort with `ValueError`: the file is neither renamed nor
deleted. -/
theorem tb1tfl_nonnumeric_run_value_error (b : BidsName) (s : String)
    (hT : b.has "TB1TFL" = true)
    (hm : b.has "MP2RAGE" = false)
    (hroi : b.has "ROI1" = false)
    (hec : matchEcho b = none)
    (hecho : b.has "echo" = false)
    (hmtw : b.has_value "acq" "mtw" = false)
    (ht2 : b.has "T2starw" = false)
    (hdwi : b.has "dwi" = false)
    (hph : b.has "ph" = false)
    (hget : b.get "run" = some s)
    (hne : s ≠ "")
    (hbad : pyIntParse? s = none) :
    patch_file_path b = PatchOutcome.valueError := by
  rw [patch_clean_tb1tfl_eq b hT hm hroi hec hecho hmtw ht2 hdwi hph, hget]
  have hrn : runNumber? (some s) = none := by
    show (if s = "" then some 0 else pyIntParse? s) = none
    rw [if_neg hne, hbad]
  rw [hrn]

/-- C9 witness: `run-abc_TB1TFL.nii` (no other rule triggers) raises. -/
theorem tb1tfl_nonnumeric_run_witness :
    patch_file_path ⟨[("run", some "abc"), ("TB1TFL", none)], "nii"⟩
      = PatchOutcome.valueError :=
  tb1tfl_nonnumeric_run_value_error _ "abc" (by decide) (by decide) (by decide) (by decide)
    (by decide) (by decide) (by decide) (by decide) (by decide) (by decide) (by decide)
    (by decide)

/-- Split a character list on a separator character (like Python `str.split`). -/
def splitListOn (sep : Char) : List Char → List (List Char)
  | [] => [[]]
  | c :: rest =>
    if c = sep then [] :: splitListOn sep rest
    else
      match splitListOn sep rest with
      | [] => [[c]]
      | g :: gs => (c :: g) :: gs

/-- Split a character list at the first occurrence of a marker character:
the part before it and, when the marker occurs, the part after it. -/
def splitFirst (mark : Char) : List Char → List Char × Option (List Char)
  | [] => ([], none)
  | c :: rest =>
    if c = mark then ([], some rest)
    else
      let r := splitFirst mark rest
      (c :: r.1, r.2)

/-- Parse one filename token: a `key-value` pair split at the first dash, or a
bare token. -/
def parseComponent (tok : List Char) : Component :=
  let r := splitFirst '-' tok
  (String.mk r.1, r.2.map String.mk)

/-- Modelled from the spec: `BidsName.from_string` (dataclass module absent
from src) parses a filename into underscore-separated key-value or bare
components followed by an extension after the first dot. -/
def BidsName.from_string (s : String) : BidsName :=
  let r := splitFirst '.' s.toList
  ⟨(splitListOn '_' r.1).map parseComponent, (r.2.map String.mk).getD ""⟩

/-- Join strings with a separator. -/
def joinWith (sep : String) : List String → String
  | [] => ""
  | [x] => x
  | x :: y :: xs => x ++ sep ++ joinWith sep (y :: xs)

/-- Render one component back to its token form. -/
def renderComponent : Component → String
  | (k, none) => k
  | (k, some v) => k ++ "-" ++ v

/-- Modelled from the spec: the canonical serialized form `str(bids_name)` of a
structured filename. -/
def BidsName.toFileName (b : BidsName) : String :=
  joinWith "_" (b.components.map renderComponent)
    ++ (if b.extension = "" then "" else "." ++ b.extension)

/-- One step of the `patch_files` file pass: apply `patch_file_path` to one
directory entry and mutate the directory state accordingly (`unlink` removes
the entry, `rename_file` replaces it under its new name, a `ValueError`
aborts the pass). -/
def stepFile (dir : List String) (name : String) : Except Unit (List String) :=
  match patch_file_path (BidsName.from_string name) with
  | .deleted => .ok (dir.filter (fun n => !(n == name)))
  | .kept b2 =>
    let newName := b2.toFileName
    if newName == name then .ok dir
    else .ok ((dir.filter (fun n => !(n == name))) ++ [newName])
  | .valueError => .error ()

/-- The iteration of the `patch_files` file pass over a fixed queue of names,
threading the mutating directory state; returns the names actually processed
and the final state (`none` when the pass aborted with an exception). -/
def patchPass (dir : List String) : List String → List String × Option (List String)
  | [] => ([], some dir)
  | n :: rest =>
    match stepFile dir n with
    | .ok d2 =>
      let r := patchPass d2 rest
      (n :: r.1, r.2)
    | .error _ => ([n], none)

/-- The file pass of `patch_files` (source lines 21-22): `Path.iterdir`
materializes the directory listing via `os.listdir` when iteration starts,
before the first `patch_file_path` call, so the pass iterates over the
snapshot of the directory taken at invocation start while the state mutates
underneath. -/
def patch_files_pass (dir : List String) : List String × Option (List String) :=
  patchPass dir dir

/-- A DICOM file, modelled by the only content `get_mt_flip_angle` reads: the
string form of the Siemens CSA header (tag (0x0029, 0x1020)), `none` when the
tag is absent. -/
structure DicomFile where
  csaHeader : Option String
deriving DecidableEq, Repr

/-- Modelled from the spec: the DICOM series descriptor (`DicomSeriesInfo` of
the dataclass module, absent from src): an identifier plus the ordered file
paths of the series; each path is modelled by the DICOM file it denotes. -/
structure DicomSeriesInfo where
  seriesId : String
  file_paths : List DicomFile
deriving DecidableEq, Repr

/-- The literal prefix of the regex
`sWipMemBlock\.adFree\[2\]\\t = \\t(.+?)\\n`: the characters up to the
capture group (the `\\t` in the pattern is a literal backslash-t pair in the
CSA header's string form). -/
def mtPrefixChars : List Char := "sWipMemBlock.adFree[2]\\t = \\t".toList

/-- The non-greedy capture `(.+?)` followed by the literal `\n` pair: the
shortest non-empty run of non-newline characters after which the text
continues with a literal backslash-n. -/
def mtCaptureAux (acc : List Char) : List Char → Option (List Char)
  | [] => none
  | c :: rest =>
    if acc ≠ [] ∧ c = '\\' ∧ rest.head? = some 'n' then some acc.reverse
    else if c = '\n' then none
    else mtCaptureAux (c :: acc) rest

/-- The `re.search` behaviour for the MT flip-angle pattern: try every start position in
order; at the first position where the literal prefix matches and the capture
succeeds, return the captured characters. -/
def findMtCaptureAux : List Char → Option (List Char)
  | [] => none
  | c :: rest =>
    if mtPrefixChars.isPrefixOf (c :: rest) then
      match mtCaptureAux [] ((c :: rest).drop mtPrefixChars.length) with
      | some cap => some cap
      | none => findMtCaptureAux rest
    else findMtCaptureAux rest

/-- The MT flip-angle pattern search over the CSA header string. -/
def findMtCapture (s : String) : Option String :=
  (findMtCaptureAux s.toList).map (fun cs => String.mk cs)

/-- Python `float(...)` parse success on a string: optional surrounding
whitespace and sign, then a decimal literal (digits with an optional dot and
optional exponent) or an infinity/nan word (digit-group underscores are not
modelled). -/
def pyFloatBody (cs : List Char) : Bool :=
  let d1 := cs.takeWhile Char.isDigit
  let r1 := cs.dropWhile Char.isDigit
  let dotted : List Char × List Char :=
    match r1 with
    | '.' :: rest => (rest.takeWhile Char.isDigit, rest.dropWhile Char.isDigit)
    | _ => ([], r1)
  if d1.length + dotted.1.length = 0 then false
  else
    match dotted.2 with
    | [] => true
    | e :: rest =>
      if e = 'e' ∨ e = 'E' then
        let rest2 : List Char :=
          match rest with
          | c :: r3 => if c = '+' ∨ c = '-' then r3 else c :: r3
          | [] => []
        !rest2.isEmpty && rest2.all Char.isDigit
      else false

/-- Whether Python `float(s)` succeeds. -/
def pyFloatParses (s : String) : Bool :=
  let cs := (s.toList.dropWhile Char.isWhitespace).reverse.dropWhile Char.isWhitespace |>.reverse
  let body : List Char :=
    match cs with
    | '+' :: rest => rest
    | '-' :: rest => rest
    | _ => cs
  let lower := body.map Char.toLower
  if lower = "inf".toList ∨ lower = "infinity".toList ∨ lower = "nan".toList then true
  else pyFloatBody body

/-- Outcome of `get_mt_flip_angle`: the unhandled `IndexError` on an empty
series, or no value (with the warning payload when one is printed), or a
successfully parsed value (carried as the captured source text). -/
inductive MtFlipResult where
  | indexError : MtFlipResult
  | noValue : Option String → MtFlipResult
  | value : String → MtFlipResult
deriving DecidableEq, Repr

/-- The `get_mt_flip_angle` function of the source: read the first DICOM file
of the series (raising `IndexError` when the series is empty), return no value
when the CSA header is absent or the embedded parameter pattern does not
match, and warn and return no value when the captured text does not parse as
a float. -/
def get_mt_flip_angle (ds : DicomSeriesInfo) : MtFlipResult :=
  match ds.file_paths with
  | [] => .indexError
  | dicom :: _ =>
    match dicom.csaHeader with
    | none => .noValue none
    | some csa =>
      match findMtCapture csa with
      | none => .noValue none
      | some cap =>
        if pyFloatParses cap then .value cap else .noValue (some cap)

/-- C2: the file pass of `patch_files` processes exactly the names of the
directory snapshot taken at invocation start: whatever deletions and renames
the per-file steps perform on the directory state, the processed list equals
the initial listing (whenever the pass completes without an exception). -/
theorem patch_files_processes_initial_listing (dir d2 : List String)
    (h : (patch_files_pass dir).2 = some d2) :
    (patch_files_pass dir).1 = dir := by
  have H : ∀ (queue st : List String), (patchPass st queue).2.isSome = true →
      (patchPass st queue).1 = queue := by
    intro queue
    induction queue with
    | nil =>
      intro st _
      rfl
    | cons n rest ih =>
      intro st hs
      unfold patchPass at hs ⊢
      cases hst : stepFile st n with
      | ok d3 =>
        simp only [hst] at hs ⊢
        rw [ih d3 hs]
      | error e =>
        simp only [hst] at hs
        simp at hs
  unfold patch_files_pass at h ⊢
  apply H
  rw [h]
  rfl

/-- C2 witness: a one-file directory whose file is renamed mid-pass still has
its full initial listing processed. -/
theorem patch_files_processes_witness :
    (patch_files_pass ["sub-01_e2_bold.nii"]).1 = ["sub-01_e2_bold.nii"] :=
  patch_files_processes_initial_listing _ ["sub-01_bold_echo-2.nii"] (by decide)

theorem get_mt_flip_angle_cons (sid : String) (d : DicomFile) (rest : List DicomFile) :
    get_mt_flip_angle ⟨sid, d :: rest⟩ =
      match d.csaHeader with
      | none => MtFlipResult.noValue none
      | some csa =>
        match findMtCapture csa with
        | none => MtFlipResult.noValue none
        | some cap =>
          if pyFloatParses cap then MtFlipResult.value cap
          else MtFlipResult.noValue (some cap) := rfl

/-- C6 counterexample: `get_mt_flip_angle` is not exception-free as claimed:
on a series descriptor with an empty file-path list it hits the unguarded
`file_paths[0]` index and raises `IndexError` instead of returning no
value. -/
theorem get_mt_flip_angle_raises_cex :
    get_mt_flip_angle ⟨"series1", []⟩ = MtFlipResult.indexError := rfl

/-- C6 (amended): for a series with at least one file, `get_mt_flip_angle`
never raises: an absent CSA header yields no value with no warning, a
non-matching parameter pattern yields no value with no warning, and a
captured substring that fails the float parse yields a warning and no
value. -/
theorem get_mt_flip_angle_no_raise_cases (ds : DicomSeriesInfo) (d : DicomFile)
    (rest : List DicomFile) (h : ds.file_paths = d :: rest) :
    get_mt_flip_angle ds ≠ MtFlipResult.indexError
    ∧ (d.csaHeader = none → get_mt_flip_angle ds = MtFlipResult.noValue none)
    ∧ (∀ s, d.csaHeader = some s → findMtCapture s = none →
        get_mt_flip_angle ds = MtFlipResult.noValue none)
    ∧ (∀ s cap, d.csaHeader = some s → findMtCapture s = some cap →
        pyFloatParses cap = false →
        get_mt_flip_angle ds = MtFlipResult.noValue (some cap)) := by
  rcases ds with ⟨sid, fps⟩
  have h2 : fps = d :: rest := h
  subst h2
  rw [get_mt_flip_angle_cons]
  refine ⟨?_, ?_, ?_, ?_⟩
  · cases hcsa : d.csaHeader with
    | none => simp [hcsa]
    | some s =>
      cases hf : findMtCapture s with
      | none => simp [hcsa, hf]
      | some cap =>
        by_cases hp : pyFloatParses cap = true
        · simp [hcsa, hf, hp]
        · simp [hcsa, hf, hp]
  · intro hcsa
    simp [hcsa]
  · intro s hcsa hf
    simp [hcsa, hf]
  · intro s cap hcsa hf hp
    simp [hcsa, hf, hp]

/-- C6 witness: a one-file series whose DICOM file has no CSA header resolves
to no value with no warning. -/
theorem get_mt_flip_angle_no_raise_witness :
    get_mt_flip_angle ⟨"series1", [⟨none⟩]⟩ = MtFlipResult.noValue none :=
  (get_mt_flip_angle_no_raise_cases ⟨"series1", [⟨none⟩]⟩ ⟨none⟩ [] rfl).2.1 rfl

/-- C10: `get_mt_flip_angle` unconditionally reads the first entry of the
series descriptor's file-path list, so an empty series raises `IndexError`
instead of returning no value. -/
theorem get_mt_flip_angle_empty_series_index_error (ds : DicomSeriesInfo)
    (h : ds.file_paths = []) : get_mt_flip_angle ds = MtFlipResult.indexError := by
  rcases ds with ⟨sid, fps⟩
  have h2 : fps = [] := h
  subst h2
  rfl

/-- C10 witness: the empty series `series2` raises. -/
theorem get_mt_flip_angle_empty_series_witness :
    get_mt_flip_angle ⟨"series2", []⟩ = MtFlipResult.indexError :=
  get_mt_flip_angle_empty_series_index_error ⟨"series2", []⟩ rfl

/-- A JSON value as far as this patcher produces them: a string, a boolean, or
a number (carried as its source text, since no arithmetic is performed). -/
inductive JVal where
  | str : String → JVal
  | bool : Bool → JVal
  | num : String → JVal
deriving DecidableEq, Repr

/-- A JSON sidecar object: an ordered key-value document. -/
abbrev JsonObj := List (String × JVal)

/-- Set a key in a JSON object: overwrite the first occurrence in place or
append the pair when the key is absent. -/
def setKey : JsonObj → String → JVal → JsonObj
  | [], k, v => [(k, v)]
  | kv :: rest, k, v => if kv.1 == k then (k, v) :: rest else kv :: setKey rest k v

/-- Modelled from the spec: the external `update_json` helper merges the given
fields into a sidecar object, adding or overwriting exactly the named keys and
leaving every other key untouched. -/
def update_json (obj : JsonObj) (updates : JsonObj) : JsonObj :=
  updates.foldl (fun o kv => setKey o kv.1 kv.2) obj

/-- Read a key of a JSON object. -/
def lookupKey (obj : JsonObj) (k : String) : Option JVal :=
  (obj.find? (fun kv => kv.1 == k)).map (fun kv => kv.2)

/-- Whether a pattern occurs as a contiguous substring of a character list. -/
def listHasInfix (pat : List Char) : List Char → Bool
  | [] => pat.isEmpty
  | c :: rest => pat.isPrefixOf (c :: rest) || listHasInfix pat rest

/-- Whether the filename matches the recursive glob `*<pat>*.json` used by
`patch_json`: it contains the pattern and ends in `.json`. -/
def matchesJsonGlob (pat name : String) : Bool :=
  listHasInfix pat.toList name.toList && ".json".toList.isSuffixOf name.toList

/-- The fourth pass of `patch_json` (source lines 124-130): for every
`*neuromelaninMTw*.json` sidecar, call `get_mt_flip_angle` and merge
`MTFlipAngle` only when a value was resolved; an `IndexError` from the lookup
aborts the pass. -/
def patchJsonNeuroPass (ds : DicomSeriesInfo) :
    List (String × JsonObj) → Except Unit (List (String × JsonObj))
  | [] => .ok []
  | f :: rest =>
    if matchesJsonGlob "neuromelaninMTw" f.1 then
      match get_mt_flip_angle ds with
      | .indexError => .error ()
      | .noValue _ => (patchJsonNeuroPass ds rest).map (fun r => f :: r)
      | .value cap =>
        (patchJsonNeuroPass ds rest).map
          (fun r => (f.1, update_json f.2 [("MTFlipAngle", JVal.num cap)]) :: r)
    else (patchJsonNeuroPass ds rest).map (fun r => f :: r)

/-- The `patch_json` function of the source: four sequential passes over the
sidecar files of the acquisition directory (modelled as a list of
filename-object pairs), merging `Units` into `part-phase` files, `MTState`
into `mt-off` and `mt-on` files, and `MTFlipAngle` into `neuromelaninMTw`
files when resolvable. -/
def patch_json (dir : List (String × JsonObj)) (ds : DicomSeriesInfo) :
    Except Unit (List (String × JsonObj)) :=
  let d1 := dir.map (fun f => if matchesJsonGlob "part-phase" f.1
    then (f.1, update_json f.2 [("Units", JVal.str "rad")]) else f)
  let d2 := d1.map (fun f => if matchesJsonGlob "mt-off" f.1
    then (f.1, update_json f.2 [("MTState", JVal.bool false)]) else f)
  let d3 := d2.map (fun f => if matchesJsonGlob "mt-on" f.1
    then (f.1, update_json f.2 [("MTState", JVal.bool true)]) else f)
  patchJsonNeuroPass ds d3

/-- The conditional MT flip-angle merge applied to one sidecar object. -/
def neuroUpdate (ds : DicomSeriesInfo) (obj : JsonObj) : JsonObj :=
  match get_mt_flip_angle ds with
  | .value cap => update_json obj [("MTFlipAngle", JVal.num cap)]
  | _ => obj

/-- The effect of the first `patch_json` pass on one sidecar file. -/
def patchEntry1 (name : String) (obj : JsonObj) : JsonObj :=
  if matchesJsonGlob "part-phase" name then update_json obj [("Units", JVal.str "rad")] else obj

/-- The cumulative effect of the first two `patch_json` passes on one file. -/
def patchEntry2 (name : String) (obj : JsonObj) : JsonObj :=
  if matchesJsonGlob "mt-off" name
    then update_json (patchEntry1 name obj) [("MTState", JVal.bool false)]
    else patchEntry1 name obj

/-- The cumulative effect of the first three `patch_json` passes on one file. -/
def patchEntry3 (name : String) (obj : JsonObj) : JsonObj :=
  if matchesJsonGlob "mt-on" name
    then update_json (patchEntry2 name obj) [("MTState", JVal.bool true)]
    else patchEntry2 name obj

/-- The cumulative effect of all four `patch_json` passes on one sidecar
file. -/
def patchEntry (ds : DicomSeriesInfo) (name : String) (obj : JsonObj) : JsonObj :=
  if matchesJsonGlob "neuromelaninMTw" name
    then neuroUpdate ds (patchEntry3 name obj)
    else patchEntry3 name obj

theorem update_json_single (o : JsonObj) (k : String) (v : JVal) :
    update_json o [(k, v)] = setKey o k v := rfl

theorem lookup_setKey_self (o : JsonObj) (k : String) (v : JVal) :
    lookupKey (setKey o k v) k = some v := by
  induction o with
  | nil => simp [setKey, lookupKey]
  | cons kv rest ih =>
    simp only [setKey]
    split
    · simp [lookupKey]
    · next hc =>
      have hc2 : (kv.1 == k) = false := by simpa using hc
      simp only [lookupKey, List.find?]
      rw [hc2]
      exact ih

theorem lookup_setKey_ne (o : JsonObj) (k : String) (v : JVal) (k2 : String) (h : k2 ≠ k) :
    lookupKey (setKey o k v) k2 = lookupKey o k2 := by
  have hkk : (k == k2) = false := by simp [Ne.symm h]
  induction o with
  | nil => simp [setKey, lookupKey, List.find?, hkk]
  | cons kv rest ih =>
    simp only [setKey]
    split
    · next hc =>
      have hc2 : kv.1 = k := by simpa using hc
      simp only [lookupKey, List.find?]
      rw [hc2, hkk]
    · simp only [lookupKey, List.find?]
      cases hpc : (kv.1 == k2) with
      | true => rfl
      | false => exact ih

theorem lookup_setKey_presence (o : JsonObj) (k : String) (v : JVal) (k2 : String) (w : JVal)
    (h : lookupKey o k2 = some w) : ∃ w2, lookupKey (setKey o k v) k2 = some w2 := by
  by_cases hk : k2 = k
  · subst hk
    exact ⟨v, lookup_setKey_self o k2 v⟩
  · exact ⟨w, by rw [lookup_setKey_ne o k v k2 hk]; exact h⟩

theorem neuroUpdate_lookup_ne (ds : DicomSeriesInfo) (o : JsonObj) (k : String)
    (h : k ≠ "MTFlipAngle") : lookupKey (neuroUpdate ds o) k = lookupKey o k := by
  unfold neuroUpdate
  cases get_mt_flip_angle ds with
  | indexError => rfl
  | noValue w => rfl
  | value cap =>
    show lookupKey (update_json o [("MTFlipAngle", JVal.num cap)]) k = lookupKey o k
    rw [update_json_single]
    exact lookup_setKey_ne o "MTFlipAngle" (JVal.num cap) k h

theorem neuroUpdate_presence (ds : DicomSeriesInfo) (o : JsonObj) (k : String) (w : JVal)
    (h : lookupKey o k = some w) : ∃ w2, lookupKey (neuroUpdate ds o) k = some w2 := by
  unfold neuroUpdate
  cases get_mt_flip_angle ds with
  | indexError => exact ⟨w, h⟩
  | noValue ww => exact ⟨w, h⟩
  | value cap =>
    show ∃ w2, lookupKey (update_json o [("MTFlipAngle", JVal.num cap)]) k = some w2
    rw [update_json_single]
    exact lookup_setKey_presence o "MTFlipAngle" (JVal.num cap) k w h

theorem patchEntry1_lookup_ne (name : String) (obj : JsonObj) (k : String)
    (h1 : k ≠ "Units") : lookupKey (patchEntry1 name obj) k = lookupKey obj k := by
  unfold patchEntry1
  split
  · rw [update_json_single]
    exact lookup_setKey_ne obj "Units" (JVal.str "rad") k h1
  · rfl

theorem patchEntry2_lookup_ne (name : String) (obj : JsonObj) (k : String)
    (h1 : k ≠ "Units") (h2 : k ≠ "MTState") :
    lookupKey (patchEntry2 name obj) k = lookupKey obj k := by
  unfold patchEntry2
  split
  · rw [update_json_single, lookup_setKey_ne _ _ _ _ h2]
    exact patchEntry1_lookup_ne name obj k h1
  · exact patchEntry1_lookup_ne name obj k h1

theorem patchEntry3_lookup_ne (name : String) (obj : JsonObj) (k : String)
    (h1 : k ≠ "Units") (h2 : k ≠ "MTState") :
    lookupKey (patchEntry3 name obj) k = lookupKey obj k := by
  unfold patchEntry3
  split
  · rw [update_json_single, lookup_setKey_ne _ _ _ _ h2]
    exact patchEntry2_lookup_ne name obj k h1 h2
  · exact patchEntry2_lookup_ne name obj k h1 h2

theorem patchEntry_lookup_ne (ds : DicomSeriesInfo) (name : String) (obj : JsonObj)
    (k : String) (h1 : k ≠ "Units") (h2 : k ≠ "MTState") (h3 : k ≠ "MTFlipAngle") :
    lookupKey (patchEntry ds name obj) k = lookupKey obj k := by
  unfold patchEntry
  split
  · rw [neuroUpdate_lookup_ne ds _ k h3]
    exact patchEntry3_lookup_ne name obj k h1 h2
  · exact patchEntry3_lookup_ne name obj k h1 h2

theorem patchEntry1_presence (name : String) (obj : JsonObj) (k : String) (w : JVal)
    (h : lookupKey obj k = some w) : ∃ w2, lookupKey (patchEntry1 name obj) k = some w2 := by
  unfold patchEntry1
  split
  · rw [update_json_single]
    exact lookup_setKey_presence obj "Units" (JVal.str "rad") k w h
  · exact ⟨w, h⟩

theorem patchEntry2_presence (name : String) (obj : JsonObj) (k : String) (w : JVal)
    (h : lookupKey obj k = some w) : ∃ w2, lookupKey (patchEntry2 name obj) k = some w2 := by
  obtain ⟨w1, hw1⟩ := patchEntry1_presence name obj k w h
  unfold patchEntry2
  split
  · rw [update_json_single]
    exact lookup_setKey_presence _ "MTState" (JVal.bool false) k w1 hw1
  · exact ⟨w1, hw1⟩

theorem patchEntry3_presence (name : String) (obj : JsonObj) (k : String) (w : JVal)
    (h : lookupKey obj k = some w) : ∃ w2, lookupKey (patchEntry3 name obj) k = some w2 := by
  obtain ⟨w1, hw1⟩ := patchEntry2_presence name obj k w h
  unfold patchEntry3
  split
  · rw [update_json_single]
    exact lookup_setKey_presence _ "MTState" (JVal.bool true) k w1 hw1
  · exact ⟨w1, hw1⟩

theorem patchEntry_presence (ds : DicomSeriesInfo) (name : String) (obj : JsonObj)
    (k : String) (w : JVal) (h : lookupKey obj k = some w) :
    ∃ w2, lookupKey (patchEntry ds name obj) k = some w2 := by
  obtain ⟨w1, hw1⟩ := patchEntry3_presence name obj k w h
  unfold patchEntry
  split
  · exact neuroUpdate_presence ds _ k w1 hw1
  · exact ⟨w1, hw1⟩

theorem patchJsonNeuroPass_ok (ds : DicomSeriesInfo) (l r : List (String × JsonObj))
    (h : patchJsonNeuroPass ds l = .ok r) :
    r = l.map (fun f => if matchesJsonGlob "neuromelaninMTw" f.1
      then (f.1, neuroUpdate ds f.2) else f) := by
  induction l generalizing r with
  | nil =>
    unfold patchJsonNeuroPass at h
    injection h with h2
    rw [← h2]
    rfl
  | cons f rest ih =>
    unfold patchJsonNeuroPass at h
    by_cases hm : matchesJsonGlob "neuromelaninMTw" f.1 = true
    · rw [if_pos hm] at h
      cases hg : get_mt_flip_angle ds with
      | indexError =>
        rw [hg] at h
        cases h
      | noValue w =>
        rw [hg] at h
        cases hrec : patchJsonNeuroPass ds rest with
        | error e =>
          rw [hrec] at h
          simp [Except.map] at h
        | ok r2 =>
          rw [hrec] at h
          simp only [Except.map] at h
          injection h with h2
          rw [← h2, List.map_cons, if_pos hm]
          have hnu : neuroUpdate ds f.2 = f.2 := by
            unfold neuroUpdate
            rw [hg]
          rw [hnu, ih r2 hrec]
      | value cap =>
        rw [hg] at h
        cases hrec : patchJsonNeuroPass ds rest with
        | error e =>
          rw [hrec] at h
          simp [Except.map] at h
        | ok r2 =>
          rw [hrec] at h
          simp only [Except.map] at h
          injection h with h2
          rw [← h2, List.map_cons, if_pos hm]
          have hnu : neuroUpdate ds f.2 = update_json f.2 [("MTFlipAngle", JVal.num cap)] := by
            unfold neuroUpdate
            rw [hg]
          rw [hnu, ih r2 hrec]
    · rw [if_neg hm] at h
      cases hrec : patchJsonNeuroPass ds rest with
      | error e =>
        rw [hrec] at h
        simp [Except.map] at h
      | ok r2 =>
        rw [hrec] at h
        simp only [Except.map] at h
        injection h with h2
        rw [← h2, List.map_cons, if_neg hm, ih r2 hrec]

theorem patch_json_ok_map (dir dir2 : List (String × JsonObj)) (ds : DicomSeriesInfo)
    (h : patch_json dir ds = .ok dir2) :
    dir2 = dir.map (fun f => (f.1, patchEntry ds f.1 f.2)) := by
  unfold patch_json at h
  have h4 := patchJsonNeuroPass_ok ds _ _ h
  rw [List.map_map, List.map_map, List.map_map] at h4
  rw [h4]
  apply List.map_congr_left
  intro f _
  rcases f with ⟨n, o⟩
  simp only [Function.comp]
  by_cases c1 : matchesJsonGlob "part-phase" n = true <;>
    by_cases c2 : matchesJsonGlob "mt-off" n = true <;>
    by_cases c3 : matchesJsonGlob "mt-on" n = true <;>
    by_cases c4 : matchesJsonGlob "neuromelaninMTw" n = true <;>
    simp [patchEntry, patchEntry3, patchEntry2, patchEntry1, c1, c2, c3, c4]

theorem neuroUpdate_value (ds : DicomSeriesInfo) (o : JsonObj) (cap : String)
    (hg : get_mt_flip_angle ds = MtFlipResult.value cap) :
    neuroUpdate ds o = update_json o [("MTFlipAngle", JVal.num cap)] := by
  unfold neuroUpdate
  rw [hg]

theorem neuroUpdate_noValue (ds : DicomSeriesInfo) (o : JsonObj) (w : Option String)
    (hg : get_mt_flip_angle ds = MtFlipResult.noValue w) :
    neuroUpdate ds o = o := by
  unfold neuroUpdate
  rw [hg]

/-- C7: for a `*neuromelaninMTw*.json` sidecar, a successful `patch_json` run
merges `MTFlipAngle` exactly when `get_mt_flip_angle` resolves a value; when
no value is resolvable (for example the CSA header is absent), the
`MTFlipAngle` field of that sidecar is exactly what it was before. -/
theorem patch_json_neuromelanin (dir dir2 : List (String × JsonObj)) (ds : DicomSeriesInfo)
    (h : patch_json dir ds = Except.ok dir2)
    (i : Nat) (hi : i < dir.length) (hi2 : i < dir2.length)
    (hn : matchesJsonGlob "neuromelaninMTw" (dir.get ⟨i, hi⟩).1 = true) :
    (∀ cap, get_mt_flip_angle ds = MtFlipResult.value cap →
      lookupKey (dir2.get ⟨i, hi2⟩).2 "MTFlipAngle" = some (JVal.num cap))
    ∧ (∀ w, get_mt_flip_angle ds = MtFlipResult.noValue w →
      lookupKey (dir2.get ⟨i, hi2⟩).2 "MTFlipAngle"
        = lookupKey (dir.get ⟨i, hi⟩).2 "MTFlipAngle") := by
  have hmap := patch_json_ok_map dir dir2 ds h
  subst hmap
  rw [List.get_map]
  constructor
  · intro cap hg
    show lookupKey (patchEntry ds (dir.get ⟨i, hi⟩).1 (dir.get ⟨i, hi⟩).2) "MTFlipAngle"
      = some (JVal.num cap)
    unfold patchEntry
    rw [if_pos hn, neuroUpdate_value ds _ cap hg, update_json_single]
    exact lookup_setKey_self _ _ _
  · intro w hg
    show lookupKey (patchEntry ds (dir.get ⟨i, hi⟩).1 (dir.get ⟨i, hi⟩).2) "MTFlipAngle"
      = lookupKey (dir.get ⟨i, hi⟩).2 "MTFlipAngle"
    unfold patchEntry
    rw [if_pos hn, neuroUpdate_noValue ds _ w hg]
    exact patchEntry3_lookup_ne _ _ _ (by decide) (by decide)

/-- C7 witness: with a series whose single DICOM file has no CSA header, the
`neuromelaninMTw` sidecar keeps its (absent) `MTFlipAngle` field. -/
theorem patch_json_neuromelanin_witness :
    lookupKey ((([("sub-01_neuromelaninMTw.json", [("A", JVal.str "x")])]
        : List (String × JsonObj)).get ⟨0, Nat.zero_lt_one⟩).2) "MTFlipAngle"
    = lookupKey ((([("sub-01_neuromelaninMTw.json", [("A", JVal.str "x")])]
        : List (String × JsonObj)).get ⟨0, Nat.zero_lt_one⟩).2) "MTFlipAngle" :=
  (patch_json_neuromelanin [("sub-01_neuromelaninMTw.json", [("A", JVal.str "x")])]
    [("sub-01_neuromelaninMTw.json", [("A", JVal.str "x")])] ⟨"s1", [⟨none⟩]⟩ rfl
    0 Nat.zero_lt_one Nat.zero_lt_one (by decide)).2 none rfl

/-- C8: a successful `patch_json` run preserves the number and the names of
the sidecar files, changes no key other than `Units`, `MTState` and
`MTFlipAngle` in any object, and never removes an existing key. -/
theorem patch_json_frame (dir dir2 : List (String × JsonObj)) (ds : DicomSeriesInfo)
    (h : patch_json dir ds = Except.ok dir2) :
    dir2.length = dir.length
    ∧ ∀ (i : Nat) (hi : i < dir.length) (hi2 : i < dir2.length),
      (dir2.get ⟨i, hi2⟩).1 = (dir.get ⟨i, hi⟩).1
      ∧ (∀ k : String, k ≠ "Units" → k ≠ "MTState" → k ≠ "MTFlipAngle" →
          lookupKey (dir2.get ⟨i, hi2⟩).2 k = lookupKey (dir.get ⟨i, hi⟩).2 k)
      ∧ (∀ (k : String) (w : JVal), lookupKey (dir.get ⟨i, hi⟩).2 k = some w →
          ∃ w2, lookupKey (dir2.get ⟨i, hi2⟩).2 k = some w2) := by
  have hmap := patch_json_ok_map dir dir2 ds h
  subst hmap
  refine ⟨List.length_map dir _, ?_⟩
  intro i hi hi2
  rw [List.get_map]
  exact ⟨rfl, fun k h1 h2 h3 => patchEntry_lookup_ne ds _ _ k h1 h2 h3,
    fun k w hw => patchEntry_presence ds _ _ k w hw⟩

/-- C8 witness: an `mt-off` sidecar gains `MTState` while its unrelated key
`A` keeps its value. -/
theorem patch_json_frame_witness :
    lookupKey ((([("sub-01_mt-off.json", [("A", JVal.str "x"), ("MTState", JVal.bool false)])]
        : List (String × JsonObj)).get ⟨0, Nat.zero_lt_one⟩).2) "A"
    = lookupKey ((([("sub-01_mt-off.json", [("A", JVal.str "x")])]
        : List (String × JsonObj)).get ⟨0, Nat.zero_lt_one⟩).2) "A" :=
  ((patch_json_frame [("sub-01_mt-off.json", [("A", JVal.str "x")])]
    [("sub-01_mt-off.json", [("A", JVal.str "x"), ("MTState", JVal.bool false)])]
    ⟨"s1", [⟨none⟩]⟩ rfl).2 0 Nat.zero_lt_one Nat.zero_lt_one).2.1 "A"
    (by decide) (by decide) (by decide)
